import Mathlib

/-!
Shallow embedding of the vehicle-passport ledger (`blockchain.py`, `crypto_utils.py`).

Conventions of the embedding:

* Python dictionaries and JSON values are modelled by the inductive type `Json`;
  a dict is an association list of key/value pairs (Python dicts have unique
  keys, so a payload coming from the program has `Nodup` keys).
* `json.dumps(..., sort_keys=True)` followed by SHA-256 is modelled by the
  canonicalisation function `canon`, which recursively sorts every object's
  keys.  A digest is represented by the canonical JSON value itself: the
  composition of the injective canonical serialisation with a collision-free
  hash is idealised as the (injective) canonical form.  Hex digest strings that
  the source stores (`tx_id`, `hash`, `previous_hash`) are therefore `Json`
  values; the genesis sentinel `'00'` becomes `Json.str "00"`.
* `time()` timestamps (floats in Python) are modelled as `Nat` values passed
  explicitly to each constructing operation, standing for the clock reads.
* Python's stable `sorted(key=...)` is modelled by a stable insertion sort.
* `defaultdict(list)` (the VIN index) is an association list in key insertion
  order; appending under an absent key creates the key at the end, exactly as
  Python dict insertion order behaves.
-/

namespace VehiclePassport

/-- JSON-like values: the payloads, serialized transactions and serialized
blocks of `blockchain.py`. -/
inductive Json where
  | null
  | str (s : String)
  | num (n : Int)
  | arr (items : List Json)
  | obj (fields : List (String × Json))
deriving Repr

mutual

/-- Boolean structural equality on `Json` (hand-rolled because `deriving
DecidableEq` is unavailable for this nested inductive). -/
def jeq : Json → Json → Bool
  | .null, .null => true
  | .str a, .str b => a == b
  | .num a, .num b => a == b
  | .arr xs, .arr ys => jeqList xs ys
  | .obj fs, .obj gs => jeqFields fs gs
  | _, _ => false

def jeqList : List Json → List Json → Bool
  | [], [] => true
  | x :: xs, y :: ys => jeq x y && jeqList xs ys
  | _, _ => false

def jeqFields : List (String × Json) → List (String × Json) → Bool
  | [], [] => true
  | f :: fs, g :: gs => (f.1 == g.1) && jeq f.2 g.2 && jeqFields fs gs
  | _, _ => false

end

mutual

theorem jeq_iff : ∀ a b : Json, jeq a b = true ↔ a = b
  | .null, .null => by simp [jeq]
  | .null, .str _ | .null, .num _ | .null, .arr _ | .null, .obj _ => by simp [jeq]
  | .str _, .null | .str _, .num _ | .str _, .arr _ | .str _, .obj _ => by simp [jeq]
  | .num _, .null | .num _, .str _ | .num _, .arr _ | .num _, .obj _ => by simp [jeq]
  | .arr _, .null | .arr _, .str _ | .arr _, .num _ | .arr _, .obj _ => by simp [jeq]
  | .obj _, .null | .obj _, .str _ | .obj _, .num _ | .obj _, .arr _ => by simp [jeq]
  | .str a, .str b => by simp [jeq]
  | .num a, .num b => by simp [jeq]
  | .arr xs, .arr ys => by simp [jeq, jeqList_iff xs ys]
  | .obj fs, .obj gs => by simp [jeq, jeqFields_iff fs gs]

theorem jeqList_iff : ∀ xs ys : List Json, jeqList xs ys = true ↔ xs = ys
  | [], [] => by simp [jeqList]
  | [], _ :: _ => by simp [jeqList]
  | _ :: _, [] => by simp [jeqList]
  | x :: xs, y :: ys => by
      simp [jeqList, jeq_iff x y, jeqList_iff xs ys]

theorem jeqFields_iff : ∀ fs gs : List (String × Json), jeqFields fs gs = true ↔ fs = gs
  | [], [] => by simp [jeqFields]
  | [], _ :: _ => by simp [jeqFields]
  | _ :: _, [] => by simp [jeqFields]
  | f :: fs, g :: gs => by
      simp [jeqFields, jeq_iff f.2 g.2, jeqFields_iff fs gs, Prod.ext_iff, and_assoc]

end

instance : DecidableEq Json := fun a b => decidable_of_iff (jeq a b = true) (jeq_iff a b)

/-- The code points of a string, the order key used by `sort_keys=True`. -/
def keyChars (s : String) : List Nat := s.data.map Char.toNat

/-- Strict lexicographic order on code-point lists. -/
def natListLt : List Nat → List Nat → Bool
  | [], [] => false
  | [], _ :: _ => true
  | _ :: _, [] => false
  | a :: as, b :: bs => a.blt b || (a.beq b && natListLt as bs)

/-- Strict lexicographic order on keys, as used by `json.dumps(sort_keys=True)`. -/
def keyLt (a b : String) : Bool := natListLt (keyChars a) (keyChars b)

/-- Insert a key/value pair into a key-sorted list (stable: goes after
strictly smaller keys, before the rest). -/
def insertPair (p : String × Json) : List (String × Json) → List (String × Json)
  | [] => [p]
  | q :: qs => if keyLt q.1 p.1 then q :: insertPair p qs else p :: q :: qs

/-- Sort an object's fields by key: the `sort_keys=True` of `json.dumps`. -/
def sortPairs : List (String × Json) → List (String × Json)
  | [] => []
  | p :: ps => insertPair p (sortPairs ps)

mutual

/-- Canonical form of a JSON value: every object's keys sorted, recursively.
`canon j` stands for the SHA-256 digest of `json.dumps(j, sort_keys=True)`:
the canonical serialisation is injective on canonical forms and SHA-256 is
treated as collision-free, so the digest is idealised as the canonical form
itself. -/
def canon : Json → Json
  | .null => .null
  | .str s => .str s
  | .num n => .num n
  | .arr items => .arr (canonList items)
  | .obj fields => .obj (sortPairs (canonFields fields))

def canonList : List Json → List Json
  | [] => []
  | x :: xs => canon x :: canonList xs

def canonFields : List (String × Json) → List (String × Json)
  | [] => []
  | kv :: rest => (kv.1, canon kv.2) :: canonFields rest

end

/-- Python `dict.get(key)`: first binding of `key`, if any. -/
def lookupJ (key : String) : List (String × Json) → Option Json
  | [] => none
  | (k, v) :: rest => if k = key then some v else lookupJ key rest

/-- `Transaction` of `blockchain.py` (fields `vin`, `type`, `actor_id`,
`role`, `timestamp`, `payload`, `tx_id`, `signature`, in source order).
`tx_id` is `Option` because `__init__` first sets it to `None`; `signature`
stays `None` until an external signer fills it. -/
structure Transaction where
  vin : String
  type : String
  actor_id : String
  role : String
  timestamp : Nat
  payload : List (String × Json)
  tx_id : Option Json
  signature : Option String
deriving DecidableEq, Repr

/-- Embed an optional digest the way `json.dumps` renders it
(`None` becomes JSON `null`). -/
def optDigestJson : Option Json → Json
  | none => .null
  | some j => j

/-- Embed an optional signature string (`None` becomes JSON `null`). -/
def optStrJson : Option String → Json
  | none => .null
  | some s => .str s

/-- `Transaction._compute_tx_id`: SHA-256 of the key-sorted JSON dump of the
dict `{vin, type, actor_id, role, timestamp, payload}` — the signature (and
the id itself) excluded. -/
def computeTxId (vin ty actor role : String) (ts : Nat)
    (payload : List (String × Json)) : Json :=
  canon (.obj [("vin", .str vin), ("type", .str ty), ("actor_id", .str actor),
               ("role", .str role), ("timestamp", .num ts), ("payload", .obj payload)])

/-- `Transaction.__init__(vin, tx_type, actor_id, role, payload)`: stores the
fields, captures the clock (`ts`), leaves `signature = None` and computes
`tx_id`. -/
def mkTransaction (vin ty actor role : String) (ts : Nat)
    (payload : List (String × Json)) : Transaction :=
  { vin := vin
    type := ty
    actor_id := actor
    role := role
    timestamp := ts
    payload := payload
    tx_id := some (computeTxId vin ty actor role ts payload)
    signature := none }

/-- `Transaction.to_dict`. -/
def Transaction.toDict (t : Transaction) : Json :=
  .obj [("tx_id", optDigestJson t.tx_id), ("vin", .str t.vin), ("type", .str t.type),
        ("actor_id", .str t.actor_id), ("role", .str t.role),
        ("timestamp", .num t.timestamp), ("payload", .obj t.payload),
        ("signature", optStrJson t.signature)]

/-- `Block` of `blockchain.py`.  `hash` is `Option` because `__init__` sets it
to `None`; `create_block` fills it. -/
structure Block where
  block_number : Nat
  timestamp : Nat
  transactions : List Transaction
  previous_hash : Json
  nonce : Nat
  hash : Option Json
deriving DecidableEq, Repr

/-- `Block.compute_hash`: SHA-256 of the key-sorted JSON dump of
`{block_number, timestamp, transactions (each to_dict), nonce, previous_hash}`
— the stored `hash` field excluded. -/
def Block.computeHash (b : Block) : Json :=
  canon (.obj [("block_number", .num b.block_number), ("timestamp", .num b.timestamp),
               ("transactions", .arr (b.transactions.map Transaction.toDict)),
               ("nonce", .num b.nonce), ("previous_hash", b.previous_hash)])

/-- `Blockchain` state: `chain`, the pending pool `transactions`, and the VIN
index (`defaultdict(list)` as an association list in key insertion order). -/
structure Blockchain where
  chain : List Block
  transactions : List Transaction
  vin_index : List (String × List Transaction)
deriving DecidableEq, Repr

/-- `defaultdict(list)[vin].append(tx)`: extend the entry of `vin`, creating
it at the end when absent. -/
def indexAppend (idx : List (String × List Transaction)) (vin : String)
    (tx : Transaction) : List (String × List Transaction) :=
  match idx with
  | [] => [(vin, [tx])]
  | (k, ts) :: rest =>
      if k = vin then (k, ts ++ [tx]) :: rest else (k, ts) :: indexAppend rest vin tx

/-- `self.vin_index.get(vin, [])`. -/
def indexGet (idx : List (String × List Transaction)) (vin : String) : List Transaction :=
  match idx with
  | [] => []
  | (k, ts) :: rest => if k = vin then ts else indexGet rest vin

/-- `Blockchain._index_block`: index every transaction of a block. -/
def indexBlock (b : Block) (idx : List (String × List Transaction)) :
    List (String × List Transaction) :=
  b.transactions.foldl (fun acc t => indexAppend acc t.vin t) idx

/-- `Blockchain.create_block(nonce, previous_hash)` at clock value `now`:
seals the whole pending pool into a block numbered `len(chain) + 1`, computes
and stores its hash, indexes it, clears the pool and appends to the chain.
Returns the new block together with the updated state. -/
def createBlock (nonce : Nat) (previous_hash : Json) (now : Nat) (st : Blockchain) :
    Block × Blockchain :=
  let b0 : Block :=
    { block_number := st.chain.length + 1
      timestamp := now
      transactions := st.transactions
      previous_hash := previous_hash
      nonce := nonce
      hash := none }
  let b : Block := { b0 with hash := some b0.computeHash }
  (b, { chain := st.chain ++ [b]
        transactions := []
        vin_index := indexBlock b st.vin_index })

/-- `Blockchain.add_transaction`: append to the pending pool and return
`len(chain) + 1`. -/
def addTransaction (tx : Transaction) (st : Blockchain) : Nat × Blockchain :=
  (st.chain.length + 1, { st with transactions := st.transactions ++ [tx] })

/-- `Blockchain.get_last_block` (`chain[-1]`, absent for an empty chain). -/
def getLastBlock (st : Blockchain) : Option Block := st.chain.getLast?

/-- One step of `is_chain_valid`'s loop, from the previous block: the current
block's stored hash must equal its recomputed hash, and its `previous_hash`
must equal the previous block's stored hash. -/
def validFrom : Block → List Block → Bool
  | _, [] => true
  | prev, b :: rest =>
      decide (b.hash = some b.computeHash) && decide (some b.previous_hash = prev.hash)
        && validFrom b rest

/-- `Blockchain.is_chain_valid`: the loop runs over indices `1 .. len-1`;
an empty or one-block chain is vacuously valid. -/
def isChainValid (st : Blockchain) : Bool :=
  match st.chain with
  | [] => true
  | g :: rest => validFrom g rest

/-- Stable insertion by timestamp: a transaction goes before the first entry
with a timestamp `≥` its own, hence after earlier entries with an equal
timestamp. -/
def insertByTime (t : Transaction) : List Transaction → List Transaction
  | [] => [t]
  | u :: us => if t.timestamp ≤ u.timestamp then t :: u :: us else u :: insertByTime t us

/-- Python's stable `sorted(transactions, key=lambda tx: tx.timestamp)`. -/
def sortByTime : List Transaction → List Transaction
  | [] => []
  | t :: ts => insertByTime t (sortByTime ts)

/-- `Blockchain.get_vehicle_history`: the indexed transactions of `vin`,
sorted by timestamp. -/
def getVehicleHistory (st : Blockchain) (vin : String) : List Transaction :=
  sortByTime (indexGet st.vin_index vin)

/-- The `info` dict built by `get_vehicle_info`. -/
structure VehicleInfo where
  vin : String
  make : Option Json
  model : Option Json
  year : Option Json
  current_owner : Option Json
  latest_mileage : Option Json
  created_by : Option String
  created_at : Option Nat
  total_transactions : Nat
deriving DecidableEq, Repr

/-- One iteration of `get_vehicle_info`'s loop over the history. -/
def infoStep (info : VehicleInfo) (tx : Transaction) : VehicleInfo :=
  if tx.type = "VEHICLE_CREATED" then
    { info with
        make := lookupJ "make" tx.payload
        model := lookupJ "model" tx.payload
        year := lookupJ "year" tx.payload
        latest_mileage := lookupJ "initial_mileage" tx.payload
        current_owner := some ((lookupJ "owner_id" tx.payload).getD (.str tx.actor_id))
        created_by := some tx.actor_id
        created_at := some tx.timestamp }
  else if tx.type = "MILEAGE_UPDATE" then
    { info with latest_mileage := lookupJ "new_mileage" tx.payload }
  else if tx.type = "OWNERSHIP_TRANSFER" then
    { info with current_owner := lookupJ "new_owner_id" tx.payload }
  else info

/-- `Blockchain.get_vehicle_info`: `None` on empty history, else the fold of
`infoStep` over the history, starting from the all-`None` dict with
`total_transactions = len(history)`. -/
def getVehicleInfo (st : Blockchain) (vin : String) : Option VehicleInfo :=
  let history := getVehicleHistory st vin
  if history.isEmpty then none
  else
    some (history.foldl infoStep
      { vin := vin
        make := none
        model := none
        year := none
        current_owner := none
        latest_mileage := none
        created_by := none
        created_at := none
        total_transactions := history.length })

/-- One iteration of `get_latest_mileage`'s loop: a `VEHICLE_CREATED` with an
`initial_mileage` key or a `MILEAGE_UPDATE` with a `new_mileage` key
overwrites the running value; everything else (including those two types with
the key missing) keeps it. -/
def mileageStep (m : Option Json) (tx : Transaction) : Option Json :=
  if tx.type = "VEHICLE_CREATED" then
    match lookupJ "initial_mileage" tx.payload with
    | some v => some v
    | none => m
  else if tx.type = "MILEAGE_UPDATE" then
    match lookupJ "new_mileage" tx.payload with
    | some v => some v
    | none => m
  else m

/-- `Blockchain.get_latest_mileage`. -/
def getLatestMileage (st : Blockchain) (vin : String) : Option Json :=
  (getVehicleHistory st vin).foldl mileageStep none

/-- `Blockchain.rebuild_index_from_chain`: fresh index, re-walk the chain in
order, return the number of distinct VINs indexed (`len(self.vin_index)`). -/
def rebuildIndexFromChain (st : Blockchain) : Nat × Blockchain :=
  let idx := st.chain.foldl (fun acc b => indexBlock b acc) []
  (idx.length, { st with vin_index := idx })

/-- The state before `Blockchain.__init__` runs (`chain`, pool and index all
empty). -/
def emptyState : Blockchain := { chain := [], transactions := [], vin_index := [] }

/-- `Blockchain.__init__` with genesis clock `t0`: seals the genesis block
with `nonce=0`, `previous_hash='00'` from the empty pool. -/
def initState (t0 : Nat) : Blockchain := (createBlock 0 (.str "00") t0 emptyState).2

/-- The ledger states reachable through the source's mutating operations:
`__init__`, `add_transaction` and `create_block` (whose `nonce` and
`previous_hash` are caller-supplied, as in the source). -/
inductive Reachable : Blockchain → Prop where
  | init (t0 : Nat) : Reachable (initState t0)
  | submit (tx : Transaction) {st : Blockchain} :
      Reachable st → Reachable (addTransaction tx st).2
  | sealBlock (nonce : Nat) (previous_hash : Json) (now : Nat) {st : Blockchain} :
      Reachable st → Reachable (createBlock nonce previous_hash now st).2

/-- All transactions stored in the chain, in chain-then-block order. -/
def chainTxs (st : Blockchain) : List Transaction :=
  (st.chain.map Block.transactions).flatten

/-- `sign_transaction(transaction, private_key)` of `crypto_utils.py`.  The
RSA signing primitive is the external capability `sig` (a function of the
digest being signed, per the spec's signing interface); the embedding returns
the updated transaction instead of mutating in place, and `Except.error`
stands for the raised `ValueError`. -/
def signTransaction (sig : Json → String) (tx : Transaction) : Except String Transaction :=
  match tx.tx_id with
  | none => .error "Transaction must have tx_id before signing"
  | some d => .ok { tx with signature := some (sig d) }

/-- `Transaction._compute_tx_id` invoked on an existing transaction object
(reads the stored fields; the signature and the stored id are not inputs). -/
def Transaction.recomputeTxId (t : Transaction) : Json :=
  computeTxId t.vin t.type t.actor_id t.role t.timestamp t.payload

/-- `add_transaction` called once per element, left to right, collecting the
returned sequence numbers: "submit is called N times". -/
def submitAll : List Transaction → Blockchain → List Nat × Blockchain
  | [], st => ([], st)
  | tx :: txs, st =>
      let r := addTransaction tx st
      let rest := submitAll txs r.2
      (r.1 :: rest.1, rest.2)

/-- The request layer's sealing pattern `create_block(nonce, get_last_block().hash)`:
the stored hash of the last block (JSON `null` if absent, which never happens on a
reachable chain). -/
def lastHashD (st : Blockchain) : Json := ((getLastBlock st).bind Block.hash).getD .null

/-- Scenario transaction: CREATED for VIN "V1" by actor "m1" (spec §8's
state-fold scenario), clock 1. -/
def demoTx1 : Transaction :=
  mkTransaction "V1" "VEHICLE_CREATED" "m1" "MANUFACTURER" 1
    [("make", .str "Acme"), ("model", .str "X"), ("year", .num 2024),
     ("initial_mileage", .num 100)]

/-- Scenario: ledger after submitting `demoTx1` to a fresh ledger. -/
def stA0 : Blockchain := (addTransaction demoTx1 (initState 0)).2

/-- Scenario: after sealing the CREATED transaction (chain of two blocks). -/
def stA : Blockchain := (createBlock 1 (lastHashD stA0) 2 stA0).2

/-- Scenario transaction: MILEAGE_UPDATE to 500, clock 3. -/
def demoTx2 : Transaction :=
  mkTransaction "V1" "MILEAGE_UPDATE" "mech1" "MECHANIC" 3 [("new_mileage", .num 500)]

/-- Scenario: after submitting the mileage update. -/
def stB0 : Blockchain := (addTransaction demoTx2 stA).2

/-- Scenario: after sealing the mileage update. -/
def stB : Blockchain := (createBlock 2 (lastHashD stB0) 4 stB0).2

/-- Scenario transaction: OWNERSHIP_TRANSFER to "b1", clock 5. -/
def demoTx3 : Transaction :=
  mkTransaction "V1" "OWNERSHIP_TRANSFER" "m1" "MANUFACTURER" 5 [("new_owner_id", .str "b1")]

/-- Scenario: after submitting the ownership transfer. -/
def stC0 : Blockchain := (addTransaction demoTx3 stB).2

/-- Scenario: after sealing the ownership transfer (three event transactions). -/
def stC : Blockchain := (createBlock 3 (lastHashD stC0) 6 stC0).2

/-- Scenario transaction: a MILEAGE_UPDATE whose payload lacks the
`new_mileage` key, clock 3. -/
def demoTxBad : Transaction := mkTransaction "V1" "MILEAGE_UPDATE" "mech1" "MECHANIC" 3 []

/-- Scenario: after submitting the defective mileage update on top of `stA`. -/
def stD0 : Blockchain := (addTransaction demoTxBad stA).2

/-- Scenario: after sealing the defective mileage update. -/
def stD : Blockchain := (createBlock 2 (lastHashD stD0) 4 stD0).2

/-- A transaction that already carries a signature. -/
def c9SignedTx : Transaction :=
  { mkTransaction "V1" "SERVICE_RECORD" "mech1" "MECHANIC" 7
      [("service_type", .str "Oil Change")] with
    signature := some "oldsig" }

/-- `demoTx1` with its `vin` field mutated (the spec's example tampering),
its identity and signature left untouched. -/
def demoTxHacked : Transaction := { demoTx1 with vin := "HACKED-VIN" }

/-- Overwrite the genesis block's `previous_hash` in place (the attack of the
link-integrity claim, aimed at block index 0). -/
def setGenesisPrevHash (st : Blockchain) (w : Json) : Blockchain :=
  match st.chain with
  | [] => st
  | g :: rest => { st with chain := { g with previous_hash := w } :: rest }

/-! ### Properties of the key order used by `sort_keys=True` -/

theorem natListLt_cons_iff {a b : Nat} {as bs : List Nat} :
    natListLt (a :: as) (b :: bs) = true ↔ a < b ∨ (a = b ∧ natListLt as bs = true) := by
  simp [natListLt, Nat.blt_eq, Nat.beq_eq, Bool.or_eq_true, Bool.and_eq_true]

theorem natListLt_asymm : ∀ a b : List Nat,
    natListLt a b = true → natListLt b a = true → False
  | [], [], h1, _ => by simp [natListLt] at h1
  | [], _ :: _, _, h2 => by simp [natListLt] at h2
  | _ :: _, [], h1, _ => by simp [natListLt] at h1
  | a :: as, b :: bs, h1, h2 => by
      rw [natListLt_cons_iff] at h1 h2
      rcases h1 with h1 | ⟨rfl, h1⟩ <;> rcases h2 with h2 | ⟨he, h2⟩ <;> try omega
      exact natListLt_asymm as bs h1 h2

theorem natListLt_conn : ∀ a b : List Nat,
    natListLt a b = false → natListLt b a = false → a = b
  | [], [], _, _ => rfl
  | [], _ :: _, h1, _ => by simp [natListLt] at h1
  | _ :: _, [], _, h2 => by simp [natListLt] at h2
  | a :: as, b :: bs, h1, h2 => by
      have h1' : ¬ natListLt (a :: as) (b :: bs) = true := by simp [h1]
      have h2' : ¬ natListLt (b :: bs) (a :: as) = true := by simp [h2]
      rw [natListLt_cons_iff] at h1' h2'
      push_neg at h1' h2'
      have hab : a = b := by omega
      subst hab
      have r1 : natListLt as bs = false := by
        have := h1'.2 rfl
        simp at this
        exact this
      have r2 : natListLt bs as = false := by
        have := h2'.2 rfl
        simp at this
        exact this
      rw [natListLt_conn as bs r1 r2]

theorem natListLt_trans : ∀ a b c : List Nat,
    natListLt a b = true → natListLt b c = true → natListLt a c = true
  | [], [], _, h1, _ => by simp [natListLt] at h1
  | [], _ :: _, [], _, h2 => by simp [natListLt] at h2
  | [], _ :: _, _ :: _, _, _ => by simp [natListLt]
  | _ :: _, [], _, h1, _ => by simp [natListLt] at h1
  | _ :: _, _ :: _, [], _, h2 => by simp [natListLt] at h2
  | a :: as, b :: bs, c :: cs, h1, h2 => by
      rw [natListLt_cons_iff] at h1 h2 ⊢
      rcases h1 with h1 | ⟨rfl, h1⟩ <;> rcases h2 with h2 | ⟨he, h2⟩
      · omega
      · omega
      · omega
      · exact Or.inr ⟨he, natListLt_trans as bs cs h1 h2⟩

theorem keyChars_inj {a b : String} (h : keyChars a = keyChars b) : a = b := by
  have hinj : Function.Injective Char.toNat := by
    intro x y hxy
    apply Char.eq_of_val_eq
    exact UInt32.toNat.inj hxy
  have hdata : a.data = b.data := List.map_injective_iff.mpr hinj h
  cases a; cases b; simp_all

theorem keyLt_asymm (a b : String) (h1 : keyLt a b = true) (h2 : keyLt b a = true) : False :=
  natListLt_asymm _ _ h1 h2

theorem keyLt_conn {a b : String} (h1 : keyLt a b = false) (h2 : keyLt b a = false) : a = b :=
  keyChars_inj (natListLt_conn _ _ h1 h2)

theorem keyLt_trans {a b c : String} (h1 : keyLt a b = true) (h2 : keyLt b c = true) :
    keyLt a c = true :=
  natListLt_trans _ _ _ h1 h2

theorem keyLt_false_of_true {a b : String} (h : keyLt a b = true) : keyLt b a = false := by
  cases h2 : keyLt b a with
  | false => rfl
  | true => exact (keyLt_asymm a b h h2).elim

theorem keyLe_trans {a b c : String} (h1 : keyLt b a = false) (h2 : keyLt c b = false) :
    keyLt c a = false := by
  cases h : keyLt c a with
  | false => rfl
  | true =>
      exfalso
      cases hbc : keyLt b c with
      | true =>
          have hba : keyLt b a = true := keyLt_trans hbc h
          rw [h1] at hba
          cases hba
      | false =>
          have hbceq : b = c := keyLt_conn hbc h2
          rw [hbceq] at h1
          rw [h1] at h
          cases h

/-! ### The field sort of `json.dumps(sort_keys=True)` -/

theorem insertPair_perm (p : String × Json) : ∀ l, List.Perm (insertPair p l) (p :: l)
  | [] => List.Perm.refl _
  | q :: qs => by
      unfold insertPair
      by_cases h : keyLt q.1 p.1 = true
      · rw [if_pos h]
        exact ((insertPair_perm p qs).cons q).trans (List.Perm.swap p q qs)
      · rw [if_neg h]

theorem sorted_insertPair (p : String × Json) :
    ∀ {l : List (String × Json)}, l.Pairwise (fun x y => keyLt y.1 x.1 = false) →
      (insertPair p l).Pairwise (fun x y => keyLt y.1 x.1 = false)
  | [], _ => List.pairwise_singleton _ _
  | q :: qs, hl => by
      rcases List.pairwise_cons.mp hl with ⟨hq, hqs⟩
      unfold insertPair
      by_cases h : keyLt q.1 p.1 = true
      · rw [if_pos h]
        refine List.pairwise_cons.mpr ⟨?_, sorted_insertPair p hqs⟩
        intro x hx
        have hx2 : x ∈ p :: qs := (insertPair_perm p qs).mem_iff.mp hx
        rcases List.mem_cons.mp hx2 with rfl | hx3
        · exact keyLt_false_of_true h
        · exact hq x hx3
      · rw [if_neg h]
        have h' : keyLt q.1 p.1 = false := by
          cases hqp : keyLt q.1 p.1 with
          | false => rfl
          | true => exact absurd hqp h
        refine List.pairwise_cons.mpr ⟨?_, hl⟩
        intro x hx
        rcases List.mem_cons.mp hx with rfl | hx2
        · exact h'
        · exact keyLe_trans h' (hq x hx2)

theorem sortPairs_perm : ∀ l : List (String × Json), List.Perm (sortPairs l) l
  | [] => List.Perm.refl _
  | p :: ps => by
      unfold sortPairs
      exact (insertPair_perm p (sortPairs ps)).trans ((sortPairs_perm ps).cons p)

theorem sorted_sortPairs : ∀ l : List (String × Json),
    (sortPairs l).Pairwise (fun x y => keyLt y.1 x.1 = false)
  | [] => List.Pairwise.nil
  | p :: ps => sorted_insertPair p (sorted_sortPairs ps)

theorem sortPairs_eq_of_perm {l1 l2 : List (String × Json)} (hp : List.Perm l1 l2)
    (hnd : (l1.map Prod.fst).Nodup) : sortPairs l1 = sortPairs l2 := by
  have hperm : List.Perm (sortPairs l1) (sortPairs l2) :=
    (sortPairs_perm l1).trans (hp.trans (sortPairs_perm l2).symm)
  have hnd2 : (l2.map Prod.fst).Nodup := (hp.map Prod.fst).nodup hnd
  have strict : ∀ (l : List (String × Json)), (l.map Prod.fst).Nodup →
      (sortPairs l).Pairwise (fun x y => keyLt x.1 y.1 = true) := by
    intro l hl
    have hndl : ((sortPairs l).map Prod.fst).Nodup := ((sortPairs_perm l).map Prod.fst).symm.nodup hl
    have hne : (sortPairs l).Pairwise (fun x y => x.1 ≠ y.1) := List.pairwise_map.mp hndl
    refine ((sorted_sortPairs l).and hne).imp ?_
    rintro a b ⟨hle, hneq⟩
    cases hab : keyLt a.1 b.1 with
    | true => rfl
    | false => exact absurd (keyLt_conn hab hle) hneq
  haveI : IsAntisymm (String × Json) (fun x y => keyLt x.1 y.1 = true) :=
    ⟨fun a b h1 h2 => (keyLt_asymm _ _ h1 h2).elim⟩
  exact List.eq_of_perm_of_sorted hperm (strict l1 hnd) (strict l2 hnd2)

theorem canonFields_eq_map (l : List (String × Json)) :
    canonFields l = l.map (fun kv => (kv.1, canon kv.2)) := by
  induction l with
  | nil => rfl
  | cons kv rest ih => rw [canonFields, ih]; rfl

theorem canonList_eq_map (l : List Json) : canonList l = l.map canon := by
  induction l with
  | nil => rfl
  | cons x xs ih => rw [canonList, ih]; rfl

theorem canon_obj_perm {p1 p2 : List (String × Json)} (hp : List.Perm p1 p2)
    (hnd : (p1.map Prod.fst).Nodup) : canon (Json.obj p1) = canon (Json.obj p2) := by
  rw [canon, canon]
  refine congrArg Json.obj (sortPairs_eq_of_perm ?_ ?_)
  · rw [canonFields_eq_map, canonFields_eq_map]
    exact hp.map _
  · rw [canonFields_eq_map]
    have : (p1.map (fun kv => (kv.1, canon kv.2))).map Prod.fst = p1.map Prod.fst := by
      rw [List.map_map]; rfl
    rw [this]
    exact hnd

/-! ### Properties of the history sort (Python's stable `sorted`) -/

theorem insertByTime_perm (t : Transaction) :
    ∀ l, List.Perm (insertByTime t l) (t :: l)
  | [] => List.Perm.refl _
  | u :: us => by
      unfold insertByTime
      by_cases h : t.timestamp ≤ u.timestamp
      · rw [if_pos h]
      · rw [if_neg h]
        exact ((insertByTime_perm t us).cons u).trans (List.Perm.swap t u us)

theorem sortByTime_perm : ∀ l, List.Perm (sortByTime l) l
  | [] => List.Perm.refl _
  | t :: ts => by
      unfold sortByTime
      exact (insertByTime_perm t (sortByTime ts)).trans ((sortByTime_perm ts).cons t)

theorem sorted_insertByTime (t : Transaction) :
    ∀ {l : List Transaction}, l.Pairwise (fun a b => a.timestamp ≤ b.timestamp) →
      (insertByTime t l).Pairwise (fun a b => a.timestamp ≤ b.timestamp)
  | [], _ => List.pairwise_singleton _ _
  | u :: us, hl => by
      rcases List.pairwise_cons.mp hl with ⟨hu, hus⟩
      unfold insertByTime
      by_cases h : t.timestamp ≤ u.timestamp
      · rw [if_pos h]
        refine List.pairwise_cons.mpr ⟨?_, hl⟩
        intro x hx
        rcases List.mem_cons.mp hx with rfl | hx2
        · exact h
        · exact le_trans h (hu x hx2)
      · rw [if_neg h]
        refine List.pairwise_cons.mpr ⟨?_, sorted_insertByTime t hus⟩
        intro x hx
        have hx2 : x ∈ t :: us := (insertByTime_perm t us).mem_iff.mp hx
        rcases List.mem_cons.mp hx2 with rfl | hx3
        · omega
        · exact hu x hx3

theorem sorted_sortByTime :
    ∀ l, (sortByTime l).Pairwise (fun a b => a.timestamp ≤ b.timestamp)
  | [] => List.Pairwise.nil
  | t :: ts => sorted_insertByTime t (sorted_sortByTime ts)

theorem filter_insertByTime (t0 : Nat) (t : Transaction) :
    ∀ l, (insertByTime t l).filter (fun u => u.timestamp == t0) =
      if t.timestamp = t0 then t :: l.filter (fun u => u.timestamp == t0)
      else l.filter (fun u => u.timestamp == t0)
  | [] => by
      by_cases h : t.timestamp = t0 <;> simp [insertByTime, h]
  | u :: us => by
      unfold insertByTime
      by_cases h : t.timestamp ≤ u.timestamp
      · rw [if_pos h]
        by_cases ht : t.timestamp = t0 <;> simp [List.filter_cons, ht]
      · rw [if_neg h]
        have hu : u.timestamp < t.timestamp := by omega
        by_cases ht : t.timestamp = t0
        · have hu0 : (u.timestamp == t0) = false := by
            simp only [beq_eq_false_iff_ne, ne_eq]
            omega
          rw [if_pos ht, List.filter_cons, List.filter_cons, hu0,
            filter_insertByTime t0 t us, if_pos ht]
          simp
        · rw [if_neg ht, List.filter_cons, List.filter_cons,
            filter_insertByTime t0 t us, if_neg ht]

theorem filter_sortByTime (t0 : Nat) :
    ∀ l, (sortByTime l).filter (fun u => u.timestamp == t0) =
      l.filter (fun u => u.timestamp == t0)
  | [] => rfl
  | t :: ts => by
      unfold sortByTime
      rw [filter_insertByTime, List.filter_cons]
      by_cases ht : t.timestamp = t0
      · rw [if_pos ht, filter_sortByTime t0 ts]
        simp [ht]
      · rw [if_neg ht, filter_sortByTime t0 ts]
        simp [ht]

/-! ### Properties of the VIN index -/

theorem indexGet_indexAppend (idx : List (String × List Transaction)) (w v : String)
    (tx : Transaction) :
    indexGet (indexAppend idx w tx) v =
      if w = v then indexGet idx v ++ [tx] else indexGet idx v := by
  induction idx with
  | nil => by_cases h : w = v <;> simp [indexAppend, indexGet, h]
  | cons kv rest ih =>
      obtain ⟨k, ts⟩ := kv
      by_cases hk : k = w
      · subst hk
        by_cases hv : k = v <;> simp [indexAppend, indexGet, hv]
      · by_cases hv : k = v
        · subst hv
          have hw : ¬ w = k := fun h => hk h.symm
          simp [indexAppend, indexGet, hk, hw]
        · simp [indexAppend, indexGet, hk, hv, ih]

theorem indexGet_foldAppend (v : String) :
    ∀ (txs : List Transaction) (idx : List (String × List Transaction)),
      indexGet (txs.foldl (fun a t => indexAppend a t.vin t) idx) v =
        indexGet idx v ++ txs.filter (fun t => t.vin == v)
  | [], idx => by simp
  | tx :: txs, idx => by
      simp only [List.foldl_cons]
      rw [indexGet_foldAppend v txs, indexGet_indexAppend, List.filter_cons]
      by_cases h : tx.vin = v
      · rw [if_pos h]
        simp [h, List.append_assoc]
      · rw [if_neg h]
        simp [h]

theorem map_fst_indexAppend (w : String) (tx : Transaction) :
    ∀ idx : List (String × List Transaction),
      (indexAppend idx w tx).map Prod.fst =
        if w ∈ idx.map Prod.fst then idx.map Prod.fst else idx.map Prod.fst ++ [w]
  | [] => by simp [indexAppend]
  | kv :: rest => by
      obtain ⟨k, ts⟩ := kv
      by_cases hk : k = w
      · subst hk
        simp [indexAppend]
      · have hw : ¬ w = k := fun h => hk h.symm
        simp only [indexAppend, hk, if_false, List.map_cons,
          map_fst_indexAppend w tx rest, List.mem_cons]
        by_cases hm : w ∈ rest.map Prod.fst
        · simp [hm, hw]
        · simp [hm, hw]

theorem mem_map_fst_foldAppend (v : String) :
    ∀ (txs : List Transaction) (idx : List (String × List Transaction)),
      (v ∈ (txs.foldl (fun a t => indexAppend a t.vin t) idx).map Prod.fst ↔
        v ∈ idx.map Prod.fst ∨ v ∈ txs.map (fun t => t.vin))
  | [], idx => by simp
  | tx :: txs, idx => by
      simp only [List.foldl_cons, List.map_cons, List.mem_cons]
      rw [mem_map_fst_foldAppend v txs, map_fst_indexAppend]
      by_cases hm : tx.vin ∈ idx.map Prod.fst
      · rw [if_pos hm]
        constructor
        · rintro (h | h)
          · exact Or.inl h
          · exact Or.inr (Or.inr h)
        · rintro (h | h | h)
          · exact Or.inl h
          · exact Or.inl (h ▸ hm)
          · exact Or.inr h
      · rw [if_neg hm]
        simp only [List.mem_append, List.mem_singleton]
        constructor
        · rintro ((h | h) | h)
          · exact Or.inl h
          · exact Or.inr (Or.inl h)
          · exact Or.inr (Or.inr h)
        · rintro (h | h | h)
          · exact Or.inl (Or.inl h)
          · exact Or.inl (Or.inr h)
          · exact Or.inr h

theorem nodup_map_fst_foldAppend :
    ∀ (txs : List Transaction) (idx : List (String × List Transaction)),
      (idx.map Prod.fst).Nodup →
      ((txs.foldl (fun a t => indexAppend a t.vin t) idx).map Prod.fst).Nodup
  | [], _, h => h
  | tx :: txs, idx, h => by
      simp only [List.foldl_cons]
      refine nodup_map_fst_foldAppend txs _ ?_
      rw [map_fst_indexAppend]
      by_cases hm : tx.vin ∈ idx.map Prod.fst
      · rw [if_pos hm]; exact h
      · rw [if_neg hm]
        simp [List.nodup_append, h, hm]

/-! ### Invariants of reachable ledger states -/

theorem computeHash_set_hash (b : Block) (h : Option Json) :
    Block.computeHash { b with hash := h } = b.computeHash := rfl

theorem indexBlock_indexGet (b : Block) (idx : List (String × List Transaction)) (v : String) :
    indexGet (indexBlock b idx) v = indexGet idx v ++ b.transactions.filter (fun t => t.vin == v) :=
  indexGet_foldAppend v b.transactions idx

theorem reachable_invariant {st : Blockchain} (hst : Reachable st) :
    st.chain ≠ [] ∧
    (∀ g rest, st.chain = g :: rest → g.transactions = []) ∧
    (∀ b ∈ st.chain, b.hash = some b.computeHash) ∧
    (∀ v, indexGet st.vin_index v = (chainTxs st).filter (fun t => t.vin == v)) := by
  induction hst with
  | init t0 =>
      refine ⟨by simp [initState, createBlock, emptyState], ?_, ?_, ?_⟩
      · intro g rest hg
        simp [initState, createBlock, emptyState] at hg
        rw [← hg.1]
      · intro b hb
        simp [initState, createBlock, emptyState] at hb
        rw [hb]
        rfl
      · intro v
        simp [initState, createBlock, emptyState, indexBlock, indexGet, chainTxs]
  | submit tx hr ih =>
      obtain ⟨h1, h2, h3, h4⟩ := ih
      exact ⟨h1, h2, h3, fun v => by simpa [addTransaction, chainTxs] using h4 v⟩
  | sealBlock nonce ph now hr ih =>
      obtain ⟨h1, h2, h3, h4⟩ := ih
      rename_i st0
      obtain ⟨g0, rest0, hg0⟩ := List.exists_cons_of_ne_nil h1
      refine ⟨by simp [createBlock], ?_, ?_, ?_⟩
      · intro g rest hg
        simp only [createBlock] at hg
        rw [hg0] at hg
        simp only [List.cons_append] at hg
        have hgg := (List.cons.injEq _ _ _ _).mp hg
        rw [← hgg.1]
        exact h2 g0 rest0 hg0
      · intro b hb
        simp only [createBlock] at hb
        rcases List.mem_append.mp hb with hb | hb
        · exact h3 b hb
        · rw [List.mem_singleton.mp hb]
          rfl
      · intro v
        simp only [createBlock]
        rw [indexBlock_indexGet, h4 v]
        simp [chainTxs, List.filter_append]

/-! ### What chain validity guarantees, block by block -/

theorem validFrom_hash {prev : Block} {bs : List Block} (h : validFrom prev bs = true) :
    ∀ k (hk : k < bs.length),
      (bs.get ⟨k, hk⟩).hash = some (bs.get ⟨k, hk⟩).computeHash := by
  induction bs generalizing prev with
  | nil => intro k hk; simp at hk
  | cons b rest ih =>
      rw [validFrom] at h
      simp only [Bool.and_eq_true, decide_eq_true_eq] at h
      obtain ⟨⟨hb, hlink⟩, hrest⟩ := h
      intro k hk
      cases k with
      | zero => exact hb
      | succ k => exact ih hrest k (by simpa using hk)

theorem validFrom_link {prev : Block} {bs : List Block} (h : validFrom prev bs = true) :
    ∀ k (hk : k < bs.length) (hk2 : k < (prev :: bs).length),
      some ((bs.get ⟨k, hk⟩).previous_hash) = ((prev :: bs).get ⟨k, hk2⟩).hash := by
  induction bs generalizing prev with
  | nil => intro k hk; simp at hk
  | cons b rest ih =>
      rw [validFrom] at h
      simp only [Bool.and_eq_true, decide_eq_true_eq] at h
      obtain ⟨⟨hb, hlink⟩, hrest⟩ := h
      intro k hk hk2
      cases k with
      | zero => exact hlink
      | succ k => exact ih hrest k (by simpa using hk) (by simpa using hk2)

/-! ### The block digest determines the serialized transactions -/

theorem computeHash_expand (b : Block) :
    b.computeHash = Json.obj
      [("block_number", .num b.block_number), ("nonce", .num b.nonce),
       ("previous_hash", canon b.previous_hash), ("timestamp", .num b.timestamp),
       ("transactions", .arr (canonList (b.transactions.map Transaction.toDict)))] := rfl

theorem computeHash_determines_txs {b1 b2 : Block} (h : b1.computeHash = b2.computeHash) :
    b1.transactions.map (fun t => canon t.toDict) = b2.transactions.map (fun t => canon t.toDict) := by
  rw [computeHash_expand, computeHash_expand] at h
  simp only [Json.obj.injEq, List.cons.injEq, Prod.mk.injEq, Json.arr.injEq,
    and_true, true_and] at h
  rw [canonList_eq_map, canonList_eq_map, List.map_map, List.map_map] at h
  have htx : List.map (canon ∘ Transaction.toDict) b1.transactions
      = List.map (canon ∘ Transaction.toDict) b2.transactions := by tauto
  simpa [Function.comp] using htx

/-! ### Reachability of the scenario states -/

theorem reachable_stA : Reachable stA :=
  Reachable.sealBlock 1 (lastHashD stA0) 2 (Reachable.submit demoTx1 (Reachable.init 0))

theorem reachable_stB : Reachable stB :=
  Reachable.sealBlock 2 (lastHashD stB0) 4 (Reachable.submit demoTx2 reachable_stA)

theorem reachable_stC : Reachable stC :=
  Reachable.sealBlock 3 (lastHashD stC0) 6 (Reachable.submit demoTx3 reachable_stB)

theorem reachable_stD : Reachable stD :=
  Reachable.sealBlock 2 (lastHashD stD0) 4 (Reachable.submit demoTxBad reachable_stA)

/-! ### Expansions of the two digest computations -/

theorem computeTxId_expand (vin ty actor role : String) (ts : Nat)
    (payload : List (String × Json)) :
    computeTxId vin ty actor role ts payload = Json.obj
      [("actor_id", .str actor), ("payload", canon (Json.obj payload)), ("role", .str role),
       ("timestamp", .num ts), ("type", .str ty), ("vin", .str vin)] := rfl

theorem computeTxId_payload_perm (vin ty actor role : String) (ts : Nat)
    {p1 p2 : List (String × Json)} (hp : List.Perm p1 p2)
    (hnd : (p1.map Prod.fst).Nodup) :
    computeTxId vin ty actor role ts p1 = computeTxId vin ty actor role ts p2 := by
  rw [computeTxId_expand, computeTxId_expand, canon_obj_perm hp hnd]

/-! ### Claim theorems -/

/-- C5: Transaction identity computation is deterministic: two transactions
agreeing on vehicle_id, event_type, actor_id, actor_role, creation_time and
payload (payload as a key-value set: any key insertion order, keys
duplicate-free as in a Python dict), with the signature ignored, recompute
equal identity digests; and the identity stored at construction equals the
value recomputed from the same fields, so computing twice from equal inputs
yields equal output. -/
theorem transaction_identity_deterministic {t1 t2 : Transaction}
    (hvin : t1.vin = t2.vin) (hty : t1.type = t2.type) (hact : t1.actor_id = t2.actor_id)
    (hrole : t1.role = t2.role) (hts : t1.timestamp = t2.timestamp)
    (hpay : List.Perm t1.payload t2.payload)
    (hnd : (t1.payload.map Prod.fst).Nodup) :
    t1.recomputeTxId = t2.recomputeTxId ∧
    (mkTransaction t1.vin t1.type t1.actor_id t1.role t1.timestamp t1.payload).tx_id
      = some t1.recomputeTxId := by
  refine ⟨?_, rfl⟩
  rw [Transaction.recomputeTxId, Transaction.recomputeTxId, hvin, hty, hact, hrole, hts]
  exact computeTxId_payload_perm _ _ _ _ _ hpay hnd

/-- C5 witness: two concrete transactions with the same fields and the payload
keys in opposite insertion orders; their digests agree and the stored identity
is the recomputed one. -/
theorem transaction_identity_deterministic_witness :
    (mkTransaction "V9" "SERVICE_RECORD" "a9" "MECHANIC" 5
        [("s", .str "oil"), ("cost", .num 40)]).recomputeTxId
      = (mkTransaction "V9" "SERVICE_RECORD" "a9" "MECHANIC" 5
          [("cost", .num 40), ("s", .str "oil")]).recomputeTxId ∧
    (mkTransaction "V9" "SERVICE_RECORD" "a9" "MECHANIC" 5
        [("s", .str "oil"), ("cost", .num 40)]).tx_id
      = some (mkTransaction "V9" "SERVICE_RECORD" "a9" "MECHANIC" 5
          [("s", .str "oil"), ("cost", .num 40)]).recomputeTxId :=
  transaction_identity_deterministic rfl rfl rfl rfl rfl
    (by decide) (by decide)

/-- Collecting the effect of a run of `add_transaction` calls: the chain is
untouched, the pending pool grows at the end in call order, and every call
returns `len(chain) + 1` as of the call. -/
theorem submitAll_spec : ∀ (txs : List Transaction) (st : Blockchain),
    (submitAll txs st).2.chain = st.chain ∧
    (submitAll txs st).2.transactions = st.transactions ++ txs ∧
    (submitAll txs st).1 = txs.map (fun _ => st.chain.length + 1)
  | [], st => by simp [submitAll]
  | tx :: txs, st => by
      obtain ⟨h1, h2, h3⟩ := submitAll_spec txs (addTransaction tx st).2
      simp only [submitAll, addTransaction] at h1 h2 h3 ⊢
      refine ⟨h1, ?_, ?_⟩
      · rw [h2]
        simp
      · rw [h3]
        simp

/-- C4: after submit is called once per element of `txs` on a ledger whose
pool is empty and then create_block once, the new block holds exactly those
transactions in submission order, the pool is empty afterwards, the block's
number is the chain length + 1, and every submit call returned the chain
length + 1 as of its call. -/
theorem pool_seal_atomicity {st : Blockchain} (_hst : Reachable st)
    (hpool : st.transactions = []) (txs : List Transaction) (nonce : Nat)
    (ph : Json) (now : Nat) :
    (createBlock nonce ph now (submitAll txs st).2).1.transactions = txs ∧
    (createBlock nonce ph now (submitAll txs st).2).2.transactions = [] ∧
    (createBlock nonce ph now (submitAll txs st).2).1.block_number = st.chain.length + 1 ∧
    (submitAll txs st).1 = txs.map (fun _ => st.chain.length + 1) := by
  obtain ⟨h1, h2, h3⟩ := submitAll_spec txs st
  refine ⟨?_, rfl, ?_, h3⟩
  · simp [createBlock, h2, hpool]
  · simp [createBlock, h1]

/-- C4 witness: two submits then a seal on a fresh ledger. -/
theorem pool_seal_atomicity_witness :
    (createBlock 9 (Json.str "p") 9 (submitAll [demoTx1, demoTx2] (initState 0)).2).1.transactions
        = [demoTx1, demoTx2] ∧
    (createBlock 9 (Json.str "p") 9 (submitAll [demoTx1, demoTx2] (initState 0)).2).2.transactions
        = [] ∧
    (createBlock 9 (Json.str "p") 9 (submitAll [demoTx1, demoTx2] (initState 0)).2).1.block_number
        = (initState 0).chain.length + 1 ∧
    (submitAll [demoTx1, demoTx2] (initState 0)).1
        = [demoTx1, demoTx2].map (fun _ => (initState 0).chain.length + 1) :=
  pool_seal_atomicity (Reachable.init 0) rfl [demoTx1, demoTx2] 9 (Json.str "p") 9

/-- C8 counterexample: the constructor validates nothing.  A transaction with
an empty vehicle_id and an unrecognized event_type is constructed successfully
(identity and all) and lands in the pending pool, where the claim says it
never enters. -/
theorem unvalidated_transaction_enters_pool :
    (mkTransaction "" "BOGUS" "a1" "r1" 0 []).vin = "" ∧
    (mkTransaction "" "BOGUS" "a1" "r1" 0 []).type = "BOGUS" ∧
    (mkTransaction "" "BOGUS" "a1" "r1" 0 []).tx_id ≠ none ∧
    (addTransaction (mkTransaction "" "BOGUS" "a1" "r1" 0 []) (initState 0)).2.transactions
      = [mkTransaction "" "BOGUS" "a1" "r1" 0 []] := by
  refine ⟨rfl, rfl, ?_, rfl⟩
  simp [mkTransaction]

/-- C8 amended: `Transaction.__init__` performs no validation at all — for
every input (empty vehicle_id and unrecognized event_type included) the
constructor succeeds, stores the fields as given, computes the identity, and
`add_transaction` appends the result to the pending pool. -/
theorem construction_never_validates (vin ty actor role : String) (ts : Nat)
    (payload : List (String × Json)) (st : Blockchain) :
    (mkTransaction vin ty actor role ts payload).vin = vin ∧
    (mkTransaction vin ty actor role ts payload).type = ty ∧
    (mkTransaction vin ty actor role ts payload).tx_id
      = some (computeTxId vin ty actor role ts payload) ∧
    (addTransaction (mkTransaction vin ty actor role ts payload) st).2.transactions
      = st.transactions ++ [mkTransaction vin ty actor role ts payload] :=
  ⟨rfl, rfl, rfl, rfl⟩

/-- C9 counterexample: `sign_transaction` never checks for an existing
signature.  Re-signing a transaction that already carries one succeeds and
silently overwrites — there is no AlreadySigned failure. -/
theorem resigning_signed_transaction_succeeds :
    c9SignedTx.signature = some "oldsig" ∧
    signTransaction (fun _ => "newsig") c9SignedTx
      = Except.ok { c9SignedTx with signature := some "newsig" } :=
  ⟨rfl, rfl⟩

/-- C9 amended: `sign_transaction` raises (ValueError) exactly when the
transaction has no identity; when the identity exists it succeeds — even if a
signature is already set, which it overwrites — and only the signature field
changes. -/
theorem sign_transaction_exact_behavior (sig : Json → String) (tx : Transaction) :
    (tx.tx_id = none →
      signTransaction sig tx = Except.error "Transaction must have tx_id before signing") ∧
    (∀ d, tx.tx_id = some d →
      signTransaction sig tx = Except.ok { tx with signature := some (sig d) }) := by
  constructor
  · intro h
    rw [signTransaction, h]
  · intro d h
    rw [signTransaction, h]

/-- C9 witness: the error branch on an identity-less transaction and the
success branch on a constructed (identity-carrying) transaction. -/
theorem sign_transaction_exact_behavior_witness :
    signTransaction (fun _ => "s") { c9SignedTx with tx_id := none }
      = Except.error "Transaction must have tx_id before signing" ∧
    signTransaction (fun _ => "s") demoTx1
      = Except.ok { demoTx1 with signature := some "s" } :=
  ⟨(sign_transaction_exact_behavior (fun _ => "s") { c9SignedTx with tx_id := none }).1 rfl,
   (sign_transaction_exact_behavior (fun _ => "s") demoTx1).2
     (computeTxId "V1" "VEHICLE_CREATED" "m1" "MANUFACTURER" 1
       [("make", .str "Acme"), ("model", .str "X"), ("year", .num 2024),
        ("initial_mileage", .num 100)]) rfl⟩

/-- C10: on a history that establishes a mileage and ends with a
MILEAGE_UPDATE whose payload lacks the new_mileage key, get_latest_mileage
keeps the earlier established value (it skips updates missing the key) while
get_vehicle_info reports latest_mileage None (it overwrites unconditionally
with the missing-key default): the two queries disagree. -/
theorem mileage_queries_disagree_on_missing_key {st : Blockchain} {v : String}
    {pre : List Transaction} {d : Transaction} {m : Json}
    (hh : getVehicleHistory st v = pre ++ [d])
    (hty : d.type = "MILEAGE_UPDATE")
    (hkey : lookupJ "new_mileage" d.payload = none)
    (hpre : pre.foldl mileageStep none = some m) :
    getLatestMileage st v = some m ∧
    (getVehicleInfo st v).map VehicleInfo.latest_mileage = some none := by
  have htyne : ¬ d.type = "VEHICLE_CREATED" := by rw [hty]; decide
  constructor
  · rw [getLatestMileage, hh, List.foldl_append, hpre]
    simp [mileageStep, htyne, hty, hkey]
  · have hne : (pre ++ [d]).isEmpty = false := by simp
    simp only [getVehicleInfo, hh, hne, Bool.false_eq_true, if_false, Option.map_some]
    rw [List.foldl_append]
    simp [infoStep, htyne, hty, hkey]

/-- C10 witness: VIN "V1" created with initial_mileage 100, then a sealed
MILEAGE_UPDATE with no new_mileage key: get_latest_mileage still answers 100,
get_vehicle_info answers None. -/
theorem mileage_queries_disagree_witness :
    getLatestMileage stD "V1" = some (Json.num 100) ∧
    (getVehicleInfo stD "V1").map VehicleInfo.latest_mileage = some none :=
  @mileage_queries_disagree_on_missing_key stD "V1" [demoTx1] demoTxBad
    (Json.num 100) rfl rfl rfl rfl

/-- C7: the spec's concrete state-fold scenario.  After submit+seal of the
CREATED transaction, current_state("V1") has make "Acme", current_owner "m1"
(defaulted from the actor) and latest_mileage 100; after submit+seal of
MILEAGE_UPDATE(new_mileage=500), latest_mileage is 500; after submit+seal of
OWNERSHIP_TRANSFER(new_owner_id="b1"), current_owner is "b1", latest_mileage
stays 500, make stays "Acme" and total_transactions is 3. -/
theorem state_fold_concrete_scenario :
    getVehicleInfo stA "V1" = some
      { vin := "V1"
        make := some (.str "Acme")
        model := some (.str "X")
        year := some (.num 2024)
        current_owner := some (.str "m1")
        latest_mileage := some (.num 100)
        created_by := some "m1"
        created_at := some 1
        total_transactions := 1 } ∧
    (getVehicleInfo stB "V1").map VehicleInfo.latest_mileage = some (some (.num 500)) ∧
    (getVehicleInfo stC "V1").map VehicleInfo.current_owner = some (some (.str "b1")) ∧
    (getVehicleInfo stC "V1").map VehicleInfo.latest_mileage = some (some (.num 500)) ∧
    (getVehicleInfo stC "V1").map VehicleInfo.make = some (some (.str "Acme")) ∧
    (getVehicleInfo stC "V1").map VehicleInfo.total_transactions = some 3 :=
  ⟨rfl, rfl, rfl, rfl, rfl, rfl⟩

/-- C6: on every reachable ledger state, history(v) is sorted by
creation_time ascending, holds exactly the chain's transactions of v
(chain-then-block order, as a permutation), and transactions of equal
creation_time keep their chain-then-block relative order (the filter at each
timestamp is untouched by the sort: stability). -/
theorem history_sorted_and_stable {st : Blockchain} (hst : Reachable st) (v : String) :
    (getVehicleHistory st v).Pairwise (fun a b => a.timestamp ≤ b.timestamp) ∧
    List.Perm (getVehicleHistory st v) ((chainTxs st).filter (fun t => t.vin == v)) ∧
    (∀ t0 : Nat, (getVehicleHistory st v).filter (fun tx => tx.timestamp == t0) =
      ((chainTxs st).filter (fun t => t.vin == v)).filter (fun tx => tx.timestamp == t0)) := by
  obtain ⟨-, -, -, h4⟩ := reachable_invariant hst
  refine ⟨sorted_sortByTime _, ?_, ?_⟩
  · simp only [getVehicleHistory]
    rw [h4 v]
    exact sortByTime_perm _
  · intro t0
    simp only [getVehicleHistory]
    rw [h4 v]
    exact filter_sortByTime t0 _

/-- C6 witness: the three-transaction scenario ledger at VIN "V1". -/
theorem history_sorted_and_stable_witness :
    (getVehicleHistory stC "V1").Pairwise (fun a b => a.timestamp ≤ b.timestamp) ∧
    List.Perm (getVehicleHistory stC "V1") ((chainTxs stC).filter (fun t => t.vin == "V1")) ∧
    (∀ t0 : Nat, (getVehicleHistory stC "V1").filter (fun tx => tx.timestamp == t0) =
      ((chainTxs stC).filter (fun t => t.vin == "V1")).filter (fun tx => tx.timestamp == t0)) :=
  history_sorted_and_stable reachable_stC "V1"

/-- `rebuild_index_from_chain` walks the chain block by block; flattened, that
is one `indexAppend` fold over the chain's transactions in chain-then-block
order. -/
theorem rebuild_fold_eq (st : Blockchain) :
    st.chain.foldl (fun acc b => indexBlock b acc) [] =
      (chainTxs st).foldl (fun a t => indexAppend a t.vin t) [] := by
  rw [chainTxs, List.foldl_flatten, List.foldl_map]
  rfl

/-- C3: on every reachable ledger state the VIN index content of each
vehicle_id is the concatenation, in chain order, of each sealed block's
matching transactions in block order; rebuild_index_from_chain leaves
history(v) unchanged for every v, is idempotent, and returns the number of
distinct vehicle_ids occurring in the chain. -/
theorem vin_index_invariant_and_rebuild {st : Blockchain} (hst : Reachable st) :
    (∀ v, indexGet st.vin_index v
      = (st.chain.map (fun b => b.transactions.filter (fun t => t.vin == v))).flatten) ∧
    (∀ v, getVehicleHistory (rebuildIndexFromChain st).2 v = getVehicleHistory st v) ∧
    rebuildIndexFromChain (rebuildIndexFromChain st).2 = rebuildIndexFromChain st ∧
    (rebuildIndexFromChain st).1 = ((chainTxs st).map (fun t => t.vin)).toFinset.card := by
  obtain ⟨-, -, -, h4⟩ := reachable_invariant hst
  have hre : ∀ v, indexGet (rebuildIndexFromChain st).2.vin_index v
      = (chainTxs st).filter (fun t => t.vin == v) := by
    intro v
    simp only [rebuildIndexFromChain]
    rw [rebuild_fold_eq st, indexGet_foldAppend]
    simp [indexGet]
  have hblocks : ∀ v, (chainTxs st).filter (fun t => t.vin == v)
      = (st.chain.map (fun b => b.transactions.filter (fun t => t.vin == v))).flatten := by
    intro v
    rw [chainTxs, List.filter_flatten, List.map_map]
    rfl
  refine ⟨fun v => by rw [h4 v, hblocks v], ?_, ?_, ?_⟩
  · intro v
    simp only [getVehicleHistory]
    rw [hre v, h4 v]
  · simp [rebuildIndexFromChain]
  · simp only [rebuildIndexFromChain]
    rw [rebuild_fold_eq st]
    have hnd : (((chainTxs st).foldl (fun a t => indexAppend a t.vin t) []).map Prod.fst).Nodup :=
      nodup_map_fst_foldAppend _ [] (by simp)
    have hmem : ∀ x,
        x ∈ ((chainTxs st).foldl (fun a t => indexAppend a t.vin t) []).map Prod.fst ↔
          x ∈ (chainTxs st).map (fun t => t.vin) := by
      intro x
      rw [mem_map_fst_foldAppend]
      simp
    have hfin : (((chainTxs st).foldl (fun a t => indexAppend a t.vin t) []).map
        Prod.fst).toFinset = ((chainTxs st).map (fun t => t.vin)).toFinset := by
      apply Finset.ext
      intro x
      simp only [List.mem_toFinset]
      exact hmem x
    have hlen : ((chainTxs st).foldl (fun a t => indexAppend a t.vin t) []).length
        = (((chainTxs st).foldl (fun a t => indexAppend a t.vin t) []).map Prod.fst).length :=
      (List.length_map _ _).symm
    rw [hlen, ← List.toFinset_card_of_nodup hnd, hfin]

/-- C3 witness: the scenario ledger after three seals. -/
theorem vin_index_invariant_and_rebuild_witness :
    (∀ v, indexGet stC.vin_index v
      = (stC.chain.map (fun b => b.transactions.filter (fun t => t.vin == v))).flatten) ∧
    (∀ v, getVehicleHistory (rebuildIndexFromChain stC).2 v = getVehicleHistory stC v) ∧
    rebuildIndexFromChain (rebuildIndexFromChain stC).2 = rebuildIndexFromChain stC ∧
    (rebuildIndexFromChain stC).1 = ((chainTxs stC).map (fun t => t.vin)).toFinset.card :=
  vin_index_invariant_and_rebuild reachable_stC

/-! ### Tamper detection (C1, C2) -/

theorem validFrom_false_of_bad_hash {g : Block} {bs : List Block} (k : Nat)
    (hk : k < bs.length)
    (hbad : (bs.get ⟨k, hk⟩).hash ≠ some (bs.get ⟨k, hk⟩).computeHash) :
    validFrom g bs = false := by
  cases hv : validFrom g bs with
  | false => rfl
  | true => exact absurd (validFrom_hash hv k hk) hbad

theorem map_set_ne {α β : Type} (f : α → β) :
    ∀ (l : List α) (j : Nat) (hj : j < l.length) (x : α),
      f x ≠ f (l.get ⟨j, hj⟩) → ¬ (l.set j x).map f = l.map f
  | [], j, hj, _, _ => by simp at hj
  | a :: l, 0, _, x, hne => by
      simp only [List.set_cons_zero, List.map_cons, List.cons.injEq, not_and]
      intro hfx
      exact absurd hfx hne
  | a :: l, j + 1, hj, x, hne => by
      simp only [List.set_cons_succ, List.map_cons, List.cons.injEq, not_and]
      intro _
      exact map_set_ne f l j (by simpa using hj) x hne

theorem toDict_canon_expand (t : Transaction) :
    canon t.toDict = Json.obj
      [("actor_id", .str t.actor_id), ("payload", canon (Json.obj t.payload)),
       ("role", .str t.role), ("signature", canon (optStrJson t.signature)),
       ("timestamp", .num t.timestamp), ("tx_id", canon (optDigestJson t.tx_id)),
       ("type", .str t.type), ("vin", .str t.vin)] := rfl

/-- Mutating the vehicle_id — the claim's example field — to a different value
always changes the transaction's canonical serialized dict, so it satisfies
the tampering hypothesis of the C1 theorem. -/
theorem canon_toDict_ne_of_vin_ne (t : Transaction) {v2 : String} (hne : v2 ≠ t.vin) :
    canon (Transaction.toDict { t with vin := v2 }) ≠ canon t.toDict := by
  intro h
  rw [toDict_canon_expand, toDict_canon_expand] at h
  simp only [Json.obj.injEq, List.cons.injEq, Prod.mk.injEq, Json.str.injEq,
    and_true, true_and] at h
  exact hne (by tauto)

/-- C1: on any reachable (Ledger-produced) chain, replacing any transaction of
any sealed block — genesis included, though reachable genesis blocks hold no
transactions — by a transaction whose serialized dict differs (which mutating
any field to a new value does: vin, type, actor_id, role, timestamp, payload,
tx_id or signature all enter to_dict), without recomputing and re-storing the
block's hash, makes is_chain_valid return false. -/
theorem tampering_any_transaction_invalidates_chain {st : Blockchain}
    (hst : Reachable st) (i j : Nat) (hi : i < st.chain.length)
    (hj : j < (st.chain.get ⟨i, hi⟩).transactions.length) (tx2 : Transaction)
    (hmut : canon tx2.toDict ≠ canon ((st.chain.get ⟨i, hi⟩).transactions.get ⟨j, hj⟩).toDict) :
    isChainValid { st with chain := (st.chain.set i
      { st.chain.get ⟨i, hi⟩ with
        transactions := (st.chain.get ⟨i, hi⟩).transactions.set j tx2 }) } = false := by
  obtain ⟨h1, h2, h3, -⟩ := reachable_invariant hst
  obtain ⟨g, rest, hg⟩ := List.exists_cons_of_ne_nil h1
  cases i with
  | zero =>
      exfalso
      have hget0 : st.chain.get ⟨0, hi⟩ = g := by
        rw [List.get_of_eq hg]
        rfl
      rw [hget0, h2 g rest hg] at hj
      simp at hj
  | succ k =>
      have hbimem : st.chain.get ⟨k + 1, hi⟩ ∈ st.chain := st.chain.get_mem _ hi
      have hhash := h3 _ hbimem
      have hkrest : k < rest.length := by
        have hlen : st.chain.length = rest.length + 1 := by rw [hg]; simp
        omega
      set b' : Block := { st.chain.get ⟨k + 1, hi⟩ with
        transactions := (st.chain.get ⟨k + 1, hi⟩).transactions.set j tx2 } with hb'
      have hcs : st.chain.set (k + 1) b' = g :: rest.set k b' := by rw [hg]; rfl
      rw [hcs]
      show validFrom g (rest.set k b') = false
      have hk2 : k < (rest.set k b').length := by simpa using hkrest
      apply validFrom_false_of_bad_hash k hk2
      have hgb : (rest.set k b').get ⟨k, hk2⟩ = b' := by
        simp [List.get_eq_getElem, List.getElem_set_self]
      rw [hgb]
      have hb'hash : b'.hash = some (st.chain.get ⟨k + 1, hi⟩).computeHash := hhash
      rw [hb'hash]
      intro hsome
      have heqh : (st.chain.get ⟨k + 1, hi⟩).computeHash = b'.computeHash :=
        Option.some.inj hsome
      have hmap := computeHash_determines_txs heqh.symm
      exact map_set_ne (fun t => canon t.toDict)
        (st.chain.get ⟨k + 1, hi⟩).transactions j hj tx2 hmut hmap

/-- C1 witness: the sealed scenario chain with the spec's example mutation —
the CREATED transaction's vin changed to "HACKED-VIN" inside block index 1 —
fails validation. -/
theorem tampering_any_transaction_invalidates_chain_witness :
    isChainValid { stA with chain := (stA.chain.set 1
      { stA.chain.get ⟨1, by decide⟩ with
        transactions := (stA.chain.get ⟨1, by decide⟩).transactions.set 0 demoTxHacked }) }
      = false :=
  tampering_any_transaction_invalidates_chain reachable_stA 1 0 (by decide) (by decide)
    demoTxHacked (by decide)

/-- C2 counterexample: the claim quantifies over every block including
genesis, but genesis's previous_identity is never checked.  On the reachable
two-block scenario chain, overwriting genesis's previous_identity with "XX"
(incorrect: the sentinel is "00", and it is left different from it) leaves
is_chain_valid true. -/
theorem genesis_previous_identity_not_checked :
    (setGenesisPrevHash stA (.str "XX")).chain.head?.map Block.previous_hash
      = some (.str "XX") ∧
    Json.str "XX" ≠ Json.str "00" ∧
    isChainValid (setGenesisPrevHash stA (.str "XX")) = true :=
  ⟨rfl, by decide, rfl⟩

/-- C2 amended: for every non-genesis block (index k+1) of a reachable chain,
altering its previous_identity to a value different from the predecessor's
stored hash makes is_chain_valid false, independent of whether the mutated
block's own stored identity is internally consistent (its stored hash is
quantified arbitrary: left stale or recomputed, either way).  Genesis itself
is excluded: its previous_identity is not checked (see the counterexample). -/
theorem previous_identity_tamper_invalidates_chain {st : Blockchain}
    (hst : Reachable st) (k : Nat) (hi : k + 1 < st.chain.length)
    (w : Json) (nh : Option Json)
    (hw : some w ≠ (st.chain.get ⟨k, Nat.lt_of_succ_lt hi⟩).hash) :
    isChainValid { st with chain := (st.chain.set (k + 1)
      { st.chain.get ⟨k + 1, hi⟩ with previous_hash := w, hash := nh }) } = false := by
  obtain ⟨h1, h2, h3, -⟩ := reachable_invariant hst
  obtain ⟨g, rest, hg⟩ := List.exists_cons_of_ne_nil h1
  have hkrest : k < rest.length := by
    have hlen : st.chain.length = rest.length + 1 := by rw [hg]; simp
    omega
  set b' : Block := { st.chain.get ⟨k + 1, hi⟩ with previous_hash := w, hash := nh } with hb'
  have hcs : st.chain.set (k + 1) b' = g :: rest.set k b' := by rw [hg]; rfl
  rw [hcs]
  show validFrom g (rest.set k b') = false
  cases hv : validFrom g (rest.set k b') with
  | false => rfl
  | true =>
      exfalso
      have hk2 : k < (rest.set k b').length := by simpa using hkrest
      have hk3 : k < (g :: rest.set k b').length := by simp; omega
      have hlink := validFrom_link hv k hk2 hk3
      have hgb : (rest.set k b').get ⟨k, hk2⟩ = b' := by
        simp [List.get_eq_getElem, List.getElem_set_self]
      rw [hgb] at hlink
      have hprev : (g :: rest.set k b').get ⟨k, hk3⟩
          = st.chain.get ⟨k, Nat.lt_of_succ_lt hi⟩ := by
        have hchain : st.chain.get ⟨k, Nat.lt_of_succ_lt hi⟩ = (g :: rest).get
            ⟨k, by rw [← hg]; exact Nat.lt_of_succ_lt hi⟩ := by
          rw [List.get_of_eq hg]
        rw [hchain]
        cases k with
        | zero => rfl
        | succ m =>
            simp only [List.get_eq_getElem, List.getElem_cons_succ]
            exact List.getElem_set_ne (Nat.succ_ne_self m) _
      rw [hprev] at hlink
      exact hw hlink

/-- C2 amended witness: block index 1 of the sealed scenario chain with its
previous_identity overwritten by "WRONG" (and its stored hash dropped) fails
validation. -/
theorem previous_identity_tamper_invalidates_chain_witness :
    isChainValid { stA with chain := (stA.chain.set 1
      { stA.chain.get ⟨1, by decide⟩ with previous_hash := Json.str "WRONG", hash := none }) }
      = false :=
  previous_identity_tamper_invalidates_chain reachable_stA 0 (by decide)
    (Json.str "WRONG") none (by decide)

end VehiclePassport
